import Mathlib

/-!
Verification of the pdf-ocr OCR pipeline core against its specification.

Python strings are modelled as `List Char` (named `Str` below) so that every
operation is a structurally recursive, kernel-evaluable function.  Bitmaps are
opaque identifiers (`Img := Nat`); the external Tesseract engine is a record of
abstract fallible functions (`Engine`), and exceptions are modelled with
`Except`.  The thread-pool completion order of the batch orchestrator is
modelled as an explicit permutation of the page indices, written into the
pre-allocated result slots exactly as `ocr_engine.py` does.
-/

namespace PdfOcr

/-- Python strings, modelled as lists of characters. -/
abbrev Str := List Char

/-- The ASCII whitespace set recognised by Python's `\s`, `str.strip()` and
`str.split()` on the characters this code base manipulates. -/
def pySpace (c : Char) : Bool :=
  c = ' ' || c = '\t' || c = '\n' || c = '\r' || c = '\x0b' || c = '\x0c'

/-- Model of Python `str.strip()`: drop leading and trailing whitespace. -/
def pyStrip (l : Str) : Str :=
  ((l.dropWhile pySpace).reverse.dropWhile pySpace).reverse

/-- Model of `re.sub(r'\s+', ' ', text)`: each maximal whitespace run
becomes a single space.  The boolean flag records whether the previous
character was whitespace (in which case its run's space is already emitted). -/
def collapseWs : Bool → Str → Str
  | _, [] => []
  | prevWs, c :: cs =>
    if pySpace c then
      if prevWs then collapseWs true cs else ' ' :: collapseWs true cs
    else c :: collapseWs false cs

/-- Embedding of `OCREngine._clean_text` (src/ocr_engine.py lines 277-307):
empty input returns the empty string; otherwise whitespace runs are collapsed
to single spaces and the ends are stripped.  (The replacement table in the
source is commented out and hence not part of the behaviour.) -/
def clean_text (text : Str) : Str :=
  if text = [] then [] else pyStrip (collapseWs false text)

/-- A string is in collapsed normal form relative to the flag `prev`
("previous character was a space"): every whitespace character is a single ' '
that is not preceded by another space. -/
def wsNormed : Bool → Str → Bool
  | _, [] => true
  | prev, c :: cs =>
    if pySpace c then (c = ' ') && !prev && wsNormed true cs
    else wsNormed false cs

/-! ## Language validation and fallback (src/ocr_engine.py lines 178-222) -/

/-- Model of Python `s.split(sep)` for a single-character separator: always
returns at least one (possibly empty) part. -/
def splitOnChar (sep : Char) : Str → List Str
  | [] => [[]]
  | c :: cs =>
    let r := splitOnChar sep cs
    if c = sep then [] :: r
    else
      match r with
      | [] => [[c]]
      | h :: t => (c :: h) :: t

/-- Embedding of `OCREngine.validate_language` (lines 178-194): a `+`-joined
tag is valid when every component is in the available list, a plain tag when
it itself is. -/
def validate_language (available : List Str) (language : Str) : Bool :=
  if language.contains '+' then
    (splitOnChar '+' language).all (fun l => available.contains l)
  else available.contains language

/-- Embedding of the language-fallback logic of
`OCREngine.extract_text_from_image` (lines 210-222): an unavailable `+`-joined
tag is narrowed to its available components (re-joined with `+`), and `eng` is
the final fallback. -/
def effective_language (available : List Str) (language : Str) : Str :=
  if validate_language available language then language
  else if language.contains '+' then
    let valid_langs := (splitOnChar '+' language).filter (fun l => available.contains l)
    if valid_langs ≠ [] then List.intercalate ['+'] valid_langs
    else "eng".toList
  else "eng".toList

/-! ## Page range resolver (src/main.py lines 174-199) -/

/-- Model of Python `int(s)` on strings: optional surrounding whitespace, an
optional sign, then one or more decimal digits; anything else raises
`ValueError`, modelled as `none`.  (Underscore digit separators are not used
by this program's inputs and are not modelled.) -/
def pyInt (s : Str) : Option Int :=
  let t := pyStrip s
  match t with
  | '-' :: ds => (digitsToNat ds).map (fun n => -(n : Int))
  | '+' :: ds => (digitsToNat ds).map (fun n => (n : Int))
  | ds => (digitsToNat ds).map (fun n => (n : Int))
where
  /-- Value of a non-empty all-digit string. -/
  digitsToNat (ds : Str) : Option Nat :=
    if ds ≠ [] ∧ ds.all (fun c => c.isDigit) then
      some (ds.foldl (fun n c => n * 10 + (c.toNat - 48)) 0)
    else none

/-- The body of the `try` block of `PDFOCRTool._parse_page_range`
(src/main.py lines 186-196): `none` models a raised `ValueError` (either a
failed `int()` conversion or a `-`-split that does not unpack into exactly
two values). -/
def parse_range_core (s : Str) (total_pages : Int) : Option (Int × Int) :=
  if s.contains '-' then
    match (splitOnChar '-' s).map pyInt with
    | [some a, some b] => some (max 1 a, min total_pages b)
    | _ => none
  else
    match pyInt s with
    | some p => some (max 1 (min total_pages p), max 1 (min total_pages p))
    | none => none

/-- Embedding of `PDFOCRTool._parse_page_range` (src/main.py lines 174-199).
The boolean records whether the warning for an invalid range was logged; the
`ValueError` branch is recovered into `(none, warning)`. -/
def parse_page_range (s : Str) (total_pages : Int) : Option (Int × Int) × Bool :=
  if s = [] then (none, false)
  else
    match parse_range_core s total_pages with
    | some r => (some r, false)
    | none => (none, true)

/-! ## Layout reconstructor (src/ocr_engine.py lines 375-464) -/

/-- One row of `pytesseract.image_to_data` output, as read by
`extract_text_with_layout`. -/
structure WordToken where
  text : Str
  conf : Int
  left : Int
  top : Int
  width : Int
  height : Int
  line_num : Int
  block_num : Int
deriving DecidableEq, Repr

/-- The body of the token loop of `extract_text_with_layout` (lines 402-421):
state is `(text_blocks, current_block, current_line)`; tokens at or below the
confidence threshold leave the state untouched. -/
def layout_step (threshold : Int)
    (st : List (List WordToken) × List WordToken × Int) (t : WordToken) :
    List (List WordToken) × List WordToken × Int :=
  let (blocks, cur, curLine) := st
  if t.conf > threshold then
    if t.line_num ≠ curLine then
      (if cur ≠ [] then blocks ++ [cur] else blocks, [t], t.line_num)
    else
      (blocks, cur ++ [t], curLine)
  else st

/-- Embedding of the block-building part of `extract_text_with_layout`
(lines 397-424): `current_line` starts at the line index of the first raw
token (`data['line_num'][0] if data['line_num'] else 0`), and the final
non-empty `current_block` is appended. -/
def text_blocks_of (threshold : Int) (tokens : List WordToken) :
    List (List WordToken) :=
  let init_line : Int := match tokens with | [] => 0 | t :: _ => t.line_num
  let st := tokens.foldl (layout_step threshold) ([], [], init_line)
  if st.2.1 ≠ [] then st.1 ++ [st.2.1] else st.1

/-- Python's stable in-place `block.sort(key=lambda x: x['left'])`, modelled
with the (stable) insertion sort. -/
def sortByLeft (block : List WordToken) : List WordToken :=
  List.insertionSort (fun a b => a.left ≤ b.left) block

/-- One line of `_rebuild_text_from_blocks` (line 457-460): sort by `left`,
keep only words whose text has non-whitespace content, join with single
spaces. -/
def join_block (block : List WordToken) : Str :=
  List.intercalate [' ']
    (((sortByLeft block).filter (fun w => pyStrip w.text ≠ [])).map (fun w => w.text))

/-- Embedding of `_rebuild_text_from_blocks` (lines 441-464): empty blocks
are skipped, lines whose join has no non-whitespace content are dropped, the
rest are joined with single newlines. -/
def rebuild_text_from_blocks (text_blocks : List (List WordToken)) : Str :=
  let lines := text_blocks.foldl
    (fun lines block =>
      if block = [] then lines
      else if pyStrip (join_block block) ≠ [] then lines ++ [join_block block]
      else lines)
    []
  List.intercalate ['\n'] lines

/-- The layout pipeline of `extract_text_with_layout`: group the raw tokens,
then rebuild the text. -/
def reconstruct (threshold : Int) (tokens : List WordToken) : Str :=
  rebuild_text_from_blocks (text_blocks_of threshold tokens)

/-- Modelled from the claim's reference description: retained tokens (strictly
above the threshold) are grouped at each change of `line_num` from the
previous retained token, each group is sorted by `left` and joined with
spaces (with no dropping of whitespace-only tokens), whitespace-only lines
are dropped, and the lines are joined with newlines. -/
def reconstructClaimRef (threshold : Int) (tokens : List WordToken) : Str :=
  let retained := tokens.filter (fun t => t.conf > threshold)
  let lines := (groupByLine retained).map
    (fun g => List.intercalate [' '] ((sortByLeft g).map (fun w => w.text)))
  List.intercalate ['\n'] (lines.filter (fun l => pyStrip l ≠ []))
where
  /-- Group a token list into maximal runs of equal `line_num`. -/
  groupByLine : List WordToken → List (List WordToken)
    | [] => []
    | t :: ts => chunkAux t.line_num [t] ts
  /-- Accumulate the current run `cur` (labelled `curLine`); a differing
  `line_num` closes the run. -/
  chunkAux (curLine : Int) (cur : List WordToken) : List WordToken → List (List WordToken)
    | [] => [cur]
    | t :: ts =>
      if t.line_num = curLine then chunkAux curLine (cur ++ [t]) ts
      else cur :: chunkAux t.line_num [t] ts

/-- The amended reference: identical to `reconstructClaimRef` except that
within each sorted line-group, tokens whose text is empty or whitespace-only
are omitted before joining (as the source's join generator does). -/
def reconstructAmendedRef (threshold : Int) (tokens : List WordToken) : Str :=
  let retained := tokens.filter (fun t => t.conf > threshold)
  let lines := (reconstructClaimRef.groupByLine retained).map
    (fun g => List.intercalate [' ']
      (((sortByLeft g).filter (fun w => pyStrip w.text ≠ [])).map (fun w => w.text)))
  List.intercalate ['\n'] (lines.filter (fun l => pyStrip l ≠ []))

/-- The closing step of the token loop: append the pending `current_block`
when non-empty. -/
def finalize_blocks (st : List (List WordToken) × List WordToken × Int) :
    List (List WordToken) :=
  if st.2.1 ≠ [] then st.1 ++ [st.2.1] else st.1

/-- A pair of retained tokens on one line, the second having empty text: the
code's join skips the empty-text word, the claim's reference joins it in. -/
def c4Tokens : List WordToken :=
  [⟨"a".toList, 90, 0, 0, 5, 5, 0, 0⟩, ⟨[], 90, 10, 0, 5, 5, 0, 0⟩]

/-! ## Statistics aggregator (src/ocr_engine.py lines 466-505) -/

/-- One batch result dictionary (`RecognitionResult` in the spec): the six
fields produced by `extract_text_from_image`, plus the page number added by
the orchestrator and the optional error message of a failed page. -/
structure OcrResult where
  text : Str
  raw_text : Str
  confidence : ℚ
  language : Str
  word_count : Nat
  char_count : Nat
  page_number : Nat
  error : Option Str
deriving DecidableEq, Repr

/-- Model of Python `round(x, 2)` (confidences and rates are modelled as
rationals; the tie-breaking of binary-float banker's rounding at exact
half-cent values is modelled by round-half-up, which no claim exercises). -/
def round2 (x : ℚ) : ℚ := (round (x * 100) : ℤ) / 100

/-- The dictionary returned by `get_ocr_statistics` for non-empty input. -/
structure OcrStats where
  total_pages : Nat
  total_characters : Nat
  total_words : Nat
  average_confidence : ℚ
  low_confidence_pages : List Nat
  error_pages : List Nat
  success_rate : ℚ
deriving DecidableEq, Repr

/-- Embedding of `OCREngine.get_ocr_statistics` (lines 466-505): `none`
models the empty dictionary `{}` returned for an empty result list. -/
def get_ocr_statistics (threshold : ℚ) (results : List OcrResult) : Option OcrStats :=
  if results = [] then none
  else
    let total_pages := results.length
    let error_pages := (results.filter (fun r => r.error.isSome)).map (fun r => r.page_number)
    some
      { total_pages := total_pages
        total_characters := (results.map (fun r => r.char_count)).sum
        total_words := (results.map (fun r => r.word_count)).sum
        average_confidence :=
          round2 ((results.map (fun r => r.confidence)).sum / (total_pages : ℚ))
        low_confidence_pages :=
          (results.filter (fun r => r.confidence < threshold)).map (fun r => r.page_number)
        error_pages := error_pages
        success_rate :=
          round2 (((total_pages : ℚ) - (error_pages.length : ℚ)) / (total_pages : ℚ) * 100) }

/-- A concrete successful page result used by the statistics witness. -/
def c5Page1 : OcrResult where
  text := "a".toList
  raw_text := "a".toList
  confidence := 90
  language := "eng".toList
  word_count := 1
  char_count := 1
  page_number := 1
  error := none

/-- A concrete failed page result used by the statistics witness. -/
def c5Page2 : OcrResult where
  text := []
  raw_text := []
  confidence := 79
  language := "eng".toList
  word_count := 0
  char_count := 0
  page_number := 2
  error := some ("boom".toList)

/-! ## Recognition adapter and batch orchestrator (src/ocr_engine.py lines 196-373) -/

/-- Bitmaps are opaque to the orchestrator; model them as identifiers. -/
abbrev Img := Nat

/-- The external Tesseract engine as seen through pytesseract: the installed
language packs, and the two per-page calls (plain text and data table, of
which only the `conf` column is consumed).  Each call takes the image, the
language tag and the config string, and may fail. -/
structure Engine where
  available : List Str
  image_to_string : Img → Str → Str → Except Str Str
  image_to_data_confs : Img → Str → Str → Except Str (List Int)

/-- The `custom_config` choice of `extract_text_from_image` (lines 226-231):
a looser config for Chinese, a character whitelist otherwise. -/
def custom_config (language : Str) : Str :=
  if containsSub ("chi".toList) (language.map Char.toLower) then
    "--oem 3 --psm 6".toList
  else
    ("--oem 3 --psm 6 -c tessedit_char_whitelist=" ++
      "0123456789ABCDEFGHIJKLMNOPQRSTUVWXYZabcdefghijklmnopqrstuvwxyz").toList
where
  /-- Python substring test `needle in hay`. -/
  containsSub (needle hay : Str) : Bool :=
    (List.range (hay.length + 1)).any (fun i => startsWith needle (hay.drop i))
  /-- Does the second list start with the first? -/
  startsWith : Str → Str → Bool
    | [], _ => true
    | _ :: _, [] => false
    | c :: cs, d :: ds => c = d && startsWith cs ds

/-- Exceptions escaping the engine calls are re-raised as
`OCRError(f"OCR识别失败: {e}")` (lines 272-275). -/
def wrapOcrError (e : Str) : Str := "OCR识别失败: ".toList ++ e

/-- Model of Python `str.split()` (no separator): split on whitespace runs,
dropping empty fields.  `cur` holds the current field reversed. -/
def pySplitWsAux (cur : Str) : Str → List Str
  | [] => if cur = [] then [] else [cur.reverse]
  | c :: cs =>
    if pySpace c then
      if cur = [] then pySplitWsAux [] cs else cur.reverse :: pySplitWsAux [] cs
    else pySplitWsAux (c :: cur) cs

/-- Python `text.split()` as used for `word_count`. -/
def pySplitWs (l : Str) : List Str := pySplitWsAux [] l

/-- The dictionary built by a successful `extract_text_from_image`
(lines 260-267); `page_number` and `error` are added by the orchestrator. -/
structure PageData where
  text : Str
  raw_text : Str
  confidence : ℚ
  language : Str
  word_count : Nat
  char_count : Nat
deriving DecidableEq, Repr

/-- Embedding of `OCREngine.extract_text_from_image` (lines 196-275):
resolve `None` to the configured default language, apply the availability
fallback, call the engine twice with the identical effective language and
config, average the `conf` values strictly above `-1`, clean the text, and
wrap any engine failure as an `OCRError`. -/
def extract_text_from_image (eng : Engine) (default_language : Str) (image : Img)
    (language : Option Str) : Except Str PageData :=
  let lang := effective_language eng.available (language.getD default_language)
  let cfg := custom_config lang
  match eng.image_to_string image lang cfg with
  | .error e => .error (wrapOcrError e)
  | .ok text =>
    match eng.image_to_data_confs image lang cfg with
    | .error e => .error (wrapOcrError e)
    | .ok confs =>
      let confidences := confs.filter (fun c => c > -1)
      let avg : ℚ :=
        if confidences ≠ [] then
          ((confidences.map (fun c => (c : ℚ))).sum) / (confidences.length : ℚ)
        else 0
      let cleaned := clean_text text
      .ok { text := cleaned
            raw_text := text
            confidence := round2 avg
            language := lang
            word_count := (pySplitWs cleaned).length
            char_count := cleaned.length }

/-- Python's falsy-or `language or self.language` used when building an
error result (line 362): the default replaces both `None` and the empty
string. -/
def pyOr (language : Option Str) (default_language : Str) : Str :=
  match language with
  | none => default_language
  | some s => if s = [] then default_language else s

/-- The value written into result slot `i` by the worker collecting loop
(lines 344-367): a successful page gets its `page_number` added; a failed
page becomes the zeroed error dictionary. -/
def slot_result (eng : Engine) (default_language : Str) (language : Option Str)
    (img : Img) (i : Nat) : OcrResult :=
  match extract_text_from_image eng default_language img language with
  | .ok r =>
    { text := r.text
      raw_text := r.raw_text
      confidence := r.confidence
      language := r.language
      word_count := r.word_count
      char_count := r.char_count
      page_number := i + 1
      error := none }
  | .error e =>
    { text := []
      raw_text := []
      confidence := 0
      language := pyOr language default_language
      word_count := 0
      char_count := 0
      page_number := i + 1
      error := some e }

/-- Completion-order writes into the pre-allocated slot list: each finishing
task stores its result at its own index. -/
def writeSlots (compute : Nat → OcrResult) (order : List Nat)
    (slots : List (Option OcrResult)) : List (Option OcrResult) :=
  order.foldl (fun acc i => acc.set i (some (compute i))) slots

/-- Embedding of `OCREngine.batch_extract_text` (lines 309-373): empty input
short-circuits to `[]`; otherwise results are written into
`[None] * len(images)` slots in the given completion `order` (a permutation
of the page indices in any run of the thread pool), and the `None` entries
are filtered out at the end. -/
def batch_extract_text (eng : Engine) (default_language : Str) (images : List Img)
    (language : Option Str) (order : List Nat) : List OcrResult :=
  if images = [] then []
  else
    (writeSlots
        (fun i => slot_result eng default_language language (images.getD i 0) i)
        order (List.replicate images.length none)).filterMap id

/-- An engine whose every call fails (used by the batch witnesses, where only
the orchestrator's slot bookkeeping is under test). -/
def downEngine : Engine where
  available := ["eng".toList]
  image_to_string := fun _ _ _ => .error ("down".toList)
  image_to_data_confs := fun _ _ _ => .error ("down".toList)

/-- An engine that fails only on image `1` (with message `bad`), succeeding
elsewhere with empty output. -/
def flakyEngine : Engine where
  available := ["eng".toList]
  image_to_string := fun img _ _ => if img = 1 then .error ("bad".toList) else .ok []
  image_to_data_confs := fun _ _ _ => .ok []

/-- The same engine with page `1` repaired. -/
def flakyEngineFixed : Engine where
  available := ["eng".toList]
  image_to_string := fun _ _ _ => .ok []
  image_to_data_confs := fun _ _ _ => .ok []

/-! ## Image preprocessor (src/pdf_processor.py lines 257-284) -/

/-- A PIL image as the optimizer sees it: a mode string and pixel
dimensions. -/
structure PilImage where
  mode : Str
  width : Nat
  height : Nat
deriving DecidableEq, Repr

/-- The grayscale step of `optimize_image_for_ocr` (lines 266-268): convert
when the mode is not `L`, using the external (fallible) `convert`. -/
def grayscale_step (convert : PilImage → Str → Except Str PilImage)
    (image : PilImage) : Except Str PilImage :=
  if image.mode ≠ "L".toList then convert image ("L".toList) else .ok image

/-- The upscaling step (lines 271-277) applied when a dimension is below
1000: the scale factor is `max (1000/width) (1000/height)` and the new
dimensions are truncated products (`int(...)`); a zero dimension raises
`ZeroDivisionError`, modelled as an error.  (Python computes the scale in
floating point; the claim under test does not depend on the rounding of the
scale, so it is modelled exactly over ℚ.) -/
def resize_step (resize : PilImage → Nat → Nat → Except Str PilImage)
    (img : PilImage) : Except Str PilImage :=
  if img.width = 0 ∨ img.height = 0 then .error ("division by zero".toList)
  else
    let scale : ℚ := max (1000 / (img.width : ℚ)) (1000 / (img.height : ℚ))
    resize img (Int.toNat ⌊(img.width : ℚ) * scale⌋) (Int.toNat ⌊(img.height : ℚ) * scale⌋)

/-- Embedding of `PDFProcessor.optimize_image_for_ocr` (lines 257-284): the
`except` handler returns the *current* value of the rebound local `image` —
the original bitmap if the grayscale conversion failed, but the converted
bitmap if the upscaling failed after a successful conversion. -/
def optimize_image_for_ocr (convert : PilImage → Str → Except Str PilImage)
    (resize : PilImage → Nat → Nat → Except Str PilImage)
    (image : PilImage) : PilImage :=
  match grayscale_step convert image with
  | .error _ => image
  | .ok image1 =>
    if image1.width < 1000 ∨ image1.height < 1000 then
      match resize_step resize image1 with
      | .error _ => image1
      | .ok image2 => image2
    else image1

/-- A grayscale conversion that succeeds by switching the mode to `L`. -/
def okConvert : PilImage → Str → Except Str PilImage :=
  fun img m => .ok { img with mode := m }

/-- A resize that always fails. -/
def downResize : PilImage → Nat → Nat → Except Str PilImage :=
  fun _ _ _ => .error ("resize died".toList)

/-- A small colour bitmap. -/
def rgbImage : PilImage := { mode := "RGB".toList, width := 500, height := 500 }

/-- The page data produced by a successful recognition whose engine calls
return empty text and an empty data table. -/
def emptyPageData : PageData where
  text := []
  raw_text := []
  confidence := round2 0
  language := "eng".toList
  word_count := 0
  char_count := 0

/-! ## Theorems -/

theorem wsNormed_mono : ∀ (l : Str), wsNormed true l = true → wsNormed false l = true := by
  intro l h
  cases l with
  | nil => rfl
  | cons c cs =>
    by_cases hc : pySpace c = true
    · simp [wsNormed, hc] at h
    · simpa [wsNormed, hc] using h

theorem wsNormed_collapseWs : ∀ (l : Str) (b : Bool), wsNormed b (collapseWs b l) = true := by
  intro l
  induction l with
  | nil => intro b; rfl
  | cons c cs ih =>
    intro b
    by_cases hc : pySpace c = true
    · cases b with
      | true => simpa [collapseWs, hc] using ih true
      | false =>
        have hsp : pySpace ' ' = true := by decide
        simpa [collapseWs, hc, wsNormed, hsp] using ih true
    · simpa [collapseWs, hc, wsNormed] using ih false

theorem collapseWs_eq_self : ∀ (l : Str) (b : Bool), wsNormed b l = true → collapseWs b l = l := by
  intro l
  induction l with
  | nil => intro b _; rfl
  | cons c cs ih =>
    intro b h
    by_cases hc : pySpace c = true
    · cases b with
      | true => simp [wsNormed, hc] at h
      | false =>
        simp only [wsNormed, hc, if_true] at h
        have hce : c = ' ' := by
          rcases Bool.and_eq_true_iff.mp h with ⟨h1, _⟩
          rcases Bool.and_eq_true_iff.mp h1 with ⟨h2, _⟩
          exact of_decide_eq_true h2
        have hcs : wsNormed true cs = true := by
          rcases Bool.and_eq_true_iff.mp h with ⟨_, h2⟩
          exact h2
        have hsp : pySpace ' ' = true := by decide
        subst hce
        simp [collapseWs, hsp, ih true hcs]
    · have hcs : wsNormed false cs = true := by simpa [wsNormed, hc] using h
      simp [collapseWs, hc, ih false hcs]

theorem wsNormed_of_pref : ∀ (l t : Str) (b : Bool),
    wsNormed b (l ++ t) = true → wsNormed b l = true := by
  intro l
  induction l with
  | nil => intro t b _; rfl
  | cons c cs ih =>
    intro t b h
    by_cases hc : pySpace c = true
    · simp only [List.cons_append, wsNormed, hc, if_true] at h ⊢
      rcases Bool.and_eq_true_iff.mp h with ⟨h1, h2⟩
      exact Bool.and_eq_true_iff.mpr ⟨h1, ih t true h2⟩
    · simp only [List.cons_append, wsNormed, hc, if_false, Bool.false_eq_true] at h ⊢
      exact ih t false h

theorem wsNormed_dropWhile : ∀ (l : Str),
    wsNormed false l = true → wsNormed false (l.dropWhile pySpace) = true := by
  intro l
  induction l with
  | nil => intro _; rfl
  | cons c cs ih =>
    intro h
    by_cases hc : pySpace c = true
    · simp only [wsNormed, hc, if_true] at h
      have hcs : wsNormed true cs = true := by
        rcases Bool.and_eq_true_iff.mp h with ⟨_, h2⟩
        exact h2
      simpa [List.dropWhile, hc] using ih (wsNormed_mono cs hcs)
    · simpa [List.dropWhile, hc, wsNormed] using h

theorem dropWhile_head_not (p : Char → Bool) :
    ∀ (l : Str) (c : Char) (cs : Str), l.dropWhile p = c :: cs → p c = false := by
  intro l
  induction l with
  | nil => intro c cs h; simp [List.dropWhile] at h
  | cons a as ih =>
    intro c cs h
    by_cases ha : p a = true
    · exact ih c cs (by simpa [List.dropWhile, ha] using h)
    · rw [List.dropWhile_cons_of_neg (by simpa using ha)] at h
      cases h
      simpa using ha

theorem dropWhile_eq_self_of_head (p : Char → Bool) (l : Str)
    (h : ∀ c cs, l = c :: cs → p c = false) : l.dropWhile p = l := by
  cases l with
  | nil => rfl
  | cons c cs => exact List.dropWhile_cons_of_neg (by simpa using h c cs rfl)

/-- The result of `clean_text` is whitespace-normal: collapsed, with no
leading or trailing whitespace. -/
theorem clean_text_normed (x : Str) :
    wsNormed false (clean_text x) = true ∧
      (∀ c cs, clean_text x = c :: cs → pySpace c = false) ∧
      (∀ c cs, (clean_text x).reverse = c :: cs → pySpace c = false) := by
  by_cases hx : x = []
  · subst hx
    refine ⟨rfl, ?_, ?_⟩ <;> intro c cs h <;> simp [clean_text] at h
  · have hcx : clean_text x = ((((collapseWs false x).dropWhile pySpace).reverse.dropWhile
        pySpace)).reverse := by
      simp [clean_text, hx, pyStrip]
    set A := (collapseWs false x).dropWhile pySpace with hA
    set R := A.reverse.dropWhile pySpace with hR
    have hnA : wsNormed false A = true :=
      wsNormed_dropWhile _ (wsNormed_collapseWs x false)
    -- R.reverse is a front part of A (the suffix R of A.reverse reversed):
    obtain ⟨t, ht⟩ : ∃ t, t ++ R = A.reverse :=
      ⟨A.reverse.takeWhile pySpace, List.takeWhile_append_dropWhile pySpace A.reverse⟩
    have hRA : R.reverse ++ t.reverse = A := by
      have := congrArg List.reverse ht
      simpa using this
    have hnRrev : wsNormed false R.reverse = true := by
      rw [← hRA] at hnA
      exact wsNormed_of_pref _ _ _ hnA
    refine ⟨by rwa [hcx, hR, hA], ?_, ?_⟩
    · -- no leading whitespace: head of R.reverse is head of A
      intro c cs h
      rw [hcx] at h
      -- head of A equals c because R.reverse is a nonempty front part of A
      have hAc : ∃ ds, A = c :: ds := by
        rw [← hRA, h]
        exact ⟨cs ++ t.reverse, by simp⟩
      rcases hAc with ⟨ds, hds⟩
      exact dropWhile_head_not pySpace (collapseWs false x) c ds (hA ▸ hds)
    · -- no trailing whitespace: head of (clean_text x).reverse is head of R
      intro c cs h
      rw [hcx] at h
      rw [List.reverse_reverse] at h
      exact dropWhile_head_not pySpace A.reverse c cs (hR ▸ h)

/-- C8 (theorem): `_clean_text` is idempotent: cleaning a second time returns
the first result unchanged, for every string. -/
theorem clean_text_idempotent (x : Str) : clean_text (clean_text x) = clean_text x := by
  obtain ⟨hn, hhead, hlast⟩ := clean_text_normed x
  by_cases hy : clean_text x = []
  · rw [hy]; rfl
  · set y := clean_text x with hy'
    have hcol : collapseWs false y = y := collapseWs_eq_self y false hn
    have hdrop : y.dropWhile pySpace = y :=
      dropWhile_eq_self_of_head pySpace y hhead
    have hdrop2 : y.reverse.dropWhile pySpace = y.reverse :=
      dropWhile_eq_self_of_head pySpace y.reverse hlast
    show clean_text y = y
    rw [clean_text, if_neg hy, hcol, pyStrip, hdrop, hdrop2, List.reverse_reverse]

theorem splitOnChar_no_sep (sep : Char) :
    ∀ l : Str, l.contains sep = false → splitOnChar sep l = [l] := by
  intro l
  induction l with
  | nil => intro _; rfl
  | cons c cs ih =>
    intro h
    have hc : (c = sep) = False := by
      by_contra hne
      simp at hne
      subst hne
      simp [List.contains_cons] at h
    have hcs : cs.contains sep = false := by
      simp [List.contains_cons] at h
      simpa using h.2
    simp [splitOnChar, hc, ih hcs]

theorem contains_false_of_validate_false (available : List Str) (language : Str)
    (hplus : language.contains '+' = false)
    (h : validate_language available language = false) :
    available.contains language = false := by
  rw [validate_language, if_neg (by rw [hplus]; exact Bool.false_ne_true)] at h
  exact h

/-- Every successful recognition carries the effective (possibly narrowed)
language tag in its `language` field. -/
theorem extract_language_ok (eng : Engine) (default_language : Str) (img : Img)
    (language : Option Str) (r : PageData)
    (hok : extract_text_from_image eng default_language img language = .ok r) :
    r.language = effective_language eng.available (language.getD default_language) := by
  unfold extract_text_from_image at hok
  dsimp only at hok
  split at hok
  · cases hok
  · split at hok
    · cases hok
    · injection hok with h
      rw [← h]

/-- C3 (theorem): whenever the requested tag is not fully available, the
adapter recognizes with the `+`-joined list narrowed to the available codes,
or with the default `eng` when no requested code is available (a plain
unavailable tag splits into a one-element list whose narrowing is empty, so
it also falls back to `eng`) — and the unavailability itself never raises:
any engine exposing those languages that answers both calls yields a
successful result carrying exactly that effective language. -/
theorem language_fallback_policy (available : List Str) (language : Str)
    (h : validate_language available language = false) :
    (effective_language available language =
      (if (splitOnChar '+' language).filter (fun l => available.contains l) = [] then
        "eng".toList
      else
        List.intercalate ['+']
          ((splitOnChar '+' language).filter (fun l => available.contains l)))) ∧
      ∀ (eng : Engine) (default_language : Str) (img : Img) (r : PageData),
        eng.available = available →
        extract_text_from_image eng default_language img (some language) = .ok r →
        r.language = effective_language available language := by
  constructor
  · have hnv : ¬(validate_language available language = true) := by
      rw [h]; exact Bool.false_ne_true
    by_cases hplus : language.contains '+' = true
    · rw [effective_language, if_neg hnv, if_pos hplus]
      by_cases hv : (splitOnChar '+' language).filter (fun l => available.contains l) = []
      · rw [if_neg (fun hn => hn hv), if_pos hv]
      · rw [if_pos hv, if_neg hv]
    · have hplus' : language.contains '+' = false := by simpa using hplus
      have hsplit : splitOnChar '+' language = [language] :=
        splitOnChar_no_sep '+' language hplus'
      have hmem : available.contains language = false :=
        contains_false_of_validate_false available language hplus' h
      rw [effective_language, if_neg hnv,
        if_neg (by rw [hplus']; exact Bool.false_ne_true), hsplit]
      have hfil : List.filter (fun l => available.contains l) [language] = [] := by
        simp only [List.filter, hmem]
      rw [hfil, if_pos rfl]
  · intro eng default_language img r heng hok
    have h2 := extract_language_ok eng default_language img (some language) r hok
    rw [h2, heng]
    rfl

/-- C3 (witness): with only `eng` available, the combined request
`chi_sim+eng` is narrowed to `eng`, and a working engine recognizes with
exactly that tag, as the spec's example demands. -/
theorem language_fallback_policy_witness :
    validate_language ["eng".toList] ("chi_sim+eng".toList) = false ∧
      effective_language ["eng".toList] ("chi_sim+eng".toList) = "eng".toList ∧
      emptyPageData.language = "eng".toList := by
  refine ⟨by decide, ?_, ?_⟩
  · rw [(language_fallback_policy ["eng".toList] ("chi_sim+eng".toList) (by decide)).1]
    decide
  · have h := (language_fallback_policy ["eng".toList] ("chi_sim+eng".toList)
      (by decide)).2 flakyEngineFixed ("fra".toList) 0 emptyPageData rfl rfl
    rw [h]
    decide

/-- C6 (theorem): a range string containing `-` that parses into integers
`a` and `b` is clamped independently (`max 1 a`, `min totalPages b`) with no
`start ≤ end` validation; a plain integer is clamped into `[1, totalPages]`
and doubled; and the three concrete examples from the spec hold. -/
theorem page_range_clamping :
    (∀ (s : Str) (total a b : Int), s.contains '-' = true →
        (splitOnChar '-' s).map pyInt = [some a, some b] →
        parse_page_range s total = (some (max 1 a, min total b), false)) ∧
      (∀ (s : Str) (total p : Int), s ≠ [] → s.contains '-' = false →
        pyInt s = some p →
        parse_page_range s total =
          (some (max 1 (min total p), max 1 (min total p)), false)) ∧
      parse_page_range ("5-3".toList) 10 = (some (5, 3), false) ∧
      parse_page_range ("0-100".toList) 10 = (some (1, 10), false) ∧
      parse_page_range ("7".toList) 5 = (some (5, 5), false) := by
  refine ⟨?_, ?_, by decide, by decide, by decide⟩
  · intro s total a b hdash hsplit
    have hne : s ≠ [] := by
      intro hs
      subst hs
      simp at hdash
    rw [parse_page_range, if_neg hne, parse_range_core, if_pos hdash, hsplit]
  · intro s total p hne hdash hint
    rw [parse_page_range, if_neg hne, parse_range_core,
      if_neg (by rw [hdash]; exact Bool.false_ne_true), hint]

/-- C6 (witness): the general clamping clause applied to the concrete input
`"12-34"` with 20 pages. -/
theorem page_range_clamping_witness :
    parse_page_range ("12-34".toList) 20 = (some (max 1 12, min 20 34), false) :=
  page_range_clamping.1 ("12-34".toList) 20 12 34 (by decide) (by decide)

/-- C7 (theorem): for every non-empty range string on which the parse raises
`ValueError` (non-numeric input), the resolver recovers locally: the caller
receives the `none` range ("all pages") together with the warning flag, and
no exception escapes (the function is total and this equation is its entire
error behaviour). -/
theorem page_range_invalid_recovery (s : Str) (total : Int)
    (hne : s ≠ []) (hfail : parse_range_core s total = none) :
    parse_page_range s total = (none, true) := by
  rw [parse_page_range, if_neg hne, hfail]

/-- C7 (witness): the non-numeric input `"abc"` falls back to all pages with
a warning. -/
theorem page_range_invalid_recovery_witness :
    parse_page_range ("abc".toList) 10 = (none, true) :=
  page_range_invalid_recovery ("abc".toList) 10 (by decide) (by decide)

theorem text_blocks_of_eq_finalize (threshold : Int) (tokens : List WordToken) :
    text_blocks_of threshold tokens =
      finalize_blocks (tokens.foldl (layout_step threshold)
        ([], [], match tokens with | [] => 0 | t :: _ => t.line_num)) := rfl

theorem layout_step_apply (threshold : Int) (blocks : List (List WordToken))
    (cur : List WordToken) (curLine : Int) (t : WordToken) :
    layout_step threshold (blocks, cur, curLine) t =
      if t.conf > threshold then
        if t.line_num ≠ curLine then
          (if cur ≠ [] then blocks ++ [cur] else blocks, [t], t.line_num)
        else (blocks, cur ++ [t], curLine)
      else (blocks, cur, curLine) := rfl

/-- Tokens at or below the threshold do not move the loop state, so folding
over all tokens equals folding over the retained ones. -/
theorem foldl_layout_filter (threshold : Int) :
    ∀ (tokens : List WordToken) (st : List (List WordToken) × List WordToken × Int),
      tokens.foldl (layout_step threshold) st =
        (tokens.filter (fun t => t.conf > threshold)).foldl (layout_step threshold) st := by
  intro tokens
  induction tokens with
  | nil => intro st; rfl
  | cons t ts ih =>
    intro st
    by_cases hc : t.conf > threshold
    · rw [List.foldl_cons, List.filter_cons_of_pos (by simpa using hc), List.foldl_cons, ih]
    · have hstep : layout_step threshold st t = st := by
        rcases st with ⟨blocks, cur, curLine⟩
        rw [layout_step_apply, if_neg hc]
      rw [List.foldl_cons, hstep, List.filter_cons_of_neg (by simpa using hc), ih]

/-- Invariant of the retained-token loop: with a non-empty current block, the
finalized fold is the emitted blocks followed by the runs of equal
`line_num`. -/
theorem foldl_layout_chunk (threshold : Int) :
    ∀ (r : List WordToken) (blocks : List (List WordToken)) (cur : List WordToken)
      (curLine : Int), (∀ t ∈ r, t.conf > threshold) → cur ≠ [] →
      finalize_blocks (r.foldl (layout_step threshold) (blocks, cur, curLine)) =
        blocks ++ reconstructClaimRef.chunkAux curLine cur r := by
  intro r
  induction r with
  | nil =>
    intro blocks cur curLine _ hcur
    rw [List.foldl_nil, reconstructClaimRef.chunkAux, finalize_blocks, if_pos hcur]
  | cons t ts ih =>
    intro blocks cur curLine hconf hcur
    have hct : t.conf > threshold := hconf t (List.mem_cons_self t ts)
    have hcts : ∀ u ∈ ts, u.conf > threshold := fun u hu => hconf u (List.mem_cons_of_mem t hu)
    rw [List.foldl_cons, layout_step_apply, if_pos hct, reconstructClaimRef.chunkAux]
    by_cases hline : t.line_num = curLine
    · rw [if_neg (fun hn => hn hline), if_pos hline,
        ih blocks (cur ++ [t]) curLine hcts (by simp)]
    · rw [if_pos hline, if_pos hcur, if_neg hline,
        ih (blocks ++ [cur]) [t] t.line_num hcts (by simp)]
      simp

/-- The code's block grouping equals the reference grouping of the retained
tokens: the initialization of `current_line` from the first raw token is
immaterial, because the first retained token starts a fresh block either
way. -/
theorem text_blocks_of_eq_groupByLine (threshold : Int) (tokens : List WordToken) :
    text_blocks_of threshold tokens =
      reconstructClaimRef.groupByLine (tokens.filter (fun t => t.conf > threshold)) := by
  rw [text_blocks_of_eq_finalize, foldl_layout_filter]
  have hconf : ∀ t ∈ tokens.filter (fun t => t.conf > threshold), t.conf > threshold := by
    intro t ht
    simpa using (List.mem_filter.mp ht).2
  generalize (match tokens with | [] => (0 : Int) | t :: _ => t.line_num) = init
  cases hr : tokens.filter (fun t => t.conf > threshold) with
  | nil => rw [List.foldl_nil, reconstructClaimRef.groupByLine]; rfl
  | cons t ts =>
    have hct : t.conf > threshold := hconf t (by rw [hr]; exact List.mem_cons_self t ts)
    have hcts : ∀ u ∈ ts, u.conf > threshold := fun u hu =>
      hconf u (by rw [hr]; exact List.mem_cons_of_mem t hu)
    have hstate : layout_step threshold ([], [], init) t = ([], [t], t.line_num) := by
      rw [layout_step_apply, if_pos hct]
      by_cases hline : t.line_num = init
      · rw [if_neg (fun hn => hn hline), hline]
        simp
      · rw [if_pos hline, if_neg (fun hn => (hn rfl).elim)]
    rw [List.foldl_cons, hstate, reconstructClaimRef.groupByLine,
      foldl_layout_chunk threshold ts [] [t] t.line_num hcts (by simp), List.nil_append]

/-- The rebuild loop is the filtered map of the per-block join. -/
theorem rebuild_foldl_eq (bs : List (List WordToken)) :
    ∀ lines0 : List Str,
      bs.foldl
        (fun lines block =>
          if block = [] then lines
          else if pyStrip (join_block block) ≠ [] then lines ++ [join_block block]
          else lines)
        lines0 =
        lines0 ++ (bs.map join_block).filter (fun l => pyStrip l ≠ []) := by
  induction bs with
  | nil => intro lines0; simp
  | cons b bs' ih =>
    intro lines0
    rw [List.foldl_cons, List.map_cons]
    by_cases hb : b = []
    · have hjb : join_block b = [] := by rw [hb]; rfl
      rw [if_pos hb, ih, hjb, List.filter_cons_of_neg (by simp [pyStrip])]
    · rw [if_neg hb]
      by_cases hp : pyStrip (join_block b) ≠ []
      · rw [if_pos hp, ih, List.filter_cons_of_pos (by simpa using hp), List.append_assoc]
        rfl
      · rw [if_neg hp, ih, List.filter_cons_of_neg (by simpa using hp)]

theorem rebuild_text_from_blocks_eq (bs : List (List WordToken)) :
    rebuild_text_from_blocks bs =
      List.intercalate ['\n'] ((bs.map join_block).filter (fun l => pyStrip l ≠ [])) := by
  rw [rebuild_text_from_blocks, rebuild_foldl_eq bs [], List.nil_append]

/-- C4 (amended theorem): for every token list and threshold, the layout
pipeline of `extract_text_with_layout` / `_rebuild_text_from_blocks` equals
the amended reference, in which each sorted line-group additionally omits
tokens whose text is empty or whitespace-only before joining with spaces. -/
theorem reconstruct_eq_amended_ref (threshold : Int) (tokens : List WordToken) :
    reconstruct threshold tokens = reconstructAmendedRef threshold tokens := by
  rw [reconstruct, text_blocks_of_eq_groupByLine, rebuild_text_from_blocks_eq,
    reconstructAmendedRef]
  rfl

/-- C4 (counterexample): on `c4Tokens` with threshold 50 the code produces
`"a"` while the claim's reference (which never drops a retained token at the
join step) produces `"a "`; the claimed equality fails. -/
theorem reconstruct_ne_claim_ref :
    reconstruct 50 c4Tokens = "a".toList ∧
      reconstructClaimRef 50 c4Tokens = "a ".toList ∧
      reconstruct 50 c4Tokens ≠ reconstructClaimRef 50 c4Tokens := by
  refine ⟨by decide, by decide, by decide⟩

theorem round_le_round {x y : ℚ} (h : x ≤ y) : round x ≤ round y := by
  rw [round_eq, round_eq]
  exact Int.floor_le_floor (by linarith)

theorem round2_bounds {x : ℚ} (h0 : 0 ≤ x) (h100 : x ≤ 100) :
    0 ≤ round2 x ∧ round2 x ≤ 100 := by
  have hlo : (0 : ℤ) ≤ round (x * 100) := by
    have := round_le_round (x := 0) (y := x * 100) (by linarith)
    simpa [round_zero] using this
  have hhi : round (x * 100) ≤ 10000 := by
    have := round_le_round (x := x * 100) (y := ((10000 : ℤ) : ℚ)) (by push_cast; linarith)
    simpa [round_intCast] using this
  constructor
  · have : (0 : ℚ) ≤ ((round (x * 100) : ℤ) : ℚ) := by exact_mod_cast hlo
    rw [round2]
    positivity
  · rw [round2, div_le_iff₀ (by norm_num : (0 : ℚ) < 100)]
    exact_mod_cast hhi

/-- C5 (theorem): the statistics aggregator returns the empty summary for an
empty result list (no division by zero is reachable), and for a non-empty
list whose confidences all lie in `[0, 100]` it returns `averageConfidence`
equal to the two-decimal rounding of the unweighted mean — hence itself in
`[0, 100]` — and `successRate` equal to the two-decimal rounding of
`(totalPages - errorPages) / totalPages * 100`. -/
theorem statistics_bounds (threshold : ℚ) (results : List OcrResult)
    (hconf : ∀ r ∈ results, 0 ≤ r.confidence ∧ r.confidence ≤ 100) :
    get_ocr_statistics threshold [] = none ∧
      (results ≠ [] → ∃ s, get_ocr_statistics threshold results = some s ∧
        s.average_confidence =
          round2 ((results.map (fun r => r.confidence)).sum / (results.length : ℚ)) ∧
        0 ≤ s.average_confidence ∧ s.average_confidence ≤ 100 ∧
        s.success_rate =
          round2 (((results.length : ℚ) -
              (((results.filter (fun r => r.error.isSome)).map
                (fun r => r.page_number)).length : ℚ)) /
            (results.length : ℚ) * 100)) := by
  refine ⟨rfl, fun hne => ?_⟩
  have hn : 0 < (results.length : ℚ) := by
    have : results.length ≠ 0 := fun h => hne (List.eq_nil_of_length_eq_zero h)
    exact_mod_cast Nat.pos_of_ne_zero this
  set avg : ℚ := (results.map (fun r => r.confidence)).sum / (results.length : ℚ) with havg
  have hsum0 : 0 ≤ (results.map (fun r => r.confidence)).sum :=
    List.sum_nonneg (by
      intro x hx
      rcases List.mem_map.mp hx with ⟨r, hr, hrx⟩
      exact hrx ▸ (hconf r hr).1)
  have hsum100 : (results.map (fun r => r.confidence)).sum ≤ 100 * (results.length : ℚ) := by
    have := List.sum_le_card_nsmul (results.map (fun r => r.confidence)) 100 (by
      intro x hx
      rcases List.mem_map.mp hx with ⟨r, hr, hrx⟩
      exact hrx ▸ (hconf r hr).2)
    rw [nsmul_eq_mul] at this
    calc (results.map (fun r => r.confidence)).sum
        ≤ ((results.map (fun r => r.confidence)).length : ℚ) * 100 := this
      _ = 100 * (results.length : ℚ) := by rw [List.length_map]; ring
  have havg0 : 0 ≤ avg := by
    rw [havg]
    positivity
  have havg100 : avg ≤ 100 := by
    rw [havg, div_le_iff₀ hn]
    linarith
  obtain ⟨hb0, hb100⟩ := round2_bounds havg0 havg100
  refine ⟨_, by rw [get_ocr_statistics, if_neg hne], rfl, hb0, hb100, rfl⟩

/-- C5 (witness): the theorem applied to a concrete two-page result list with
one error page. -/
theorem statistics_bounds_witness :
    (∀ r ∈ [c5Page1, c5Page2], 0 ≤ r.confidence ∧ r.confidence ≤ 100) ∧
      (∃ s, get_ocr_statistics 60 [c5Page1, c5Page2] = some s ∧
        s.average_confidence = round2 (((90 : ℚ) + 79) / 2) ∧
        0 ≤ s.average_confidence ∧ s.average_confidence ≤ 100 ∧
        s.success_rate = round2 (((2 : ℚ) - 1) / 2 * 100)) := by
  constructor
  · decide
  · have h := (statistics_bounds 60 [c5Page1, c5Page2] (by decide)).2 (by decide)
    rcases h with ⟨s, hs, hae, h0, h100, hsr⟩
    refine ⟨s, hs, ?_, h0, h100, ?_⟩
    · rw [hae]
      norm_num [c5Page1, c5Page2]
    · rw [hsr]
      norm_num [c5Page1, c5Page2]

theorem length_writeSlots (compute : Nat → OcrResult) :
    ∀ (order : List Nat) (slots : List (Option OcrResult)),
      (writeSlots compute order slots).length = slots.length := by
  intro order
  induction order with
  | nil => intro slots; rfl
  | cons j rest ih =>
    intro slots
    show (writeSlots compute rest (slots.set j (some (compute j)))).length = slots.length
    rw [ih, List.length_set]

theorem getElem?_writeSlots (compute : Nat → OcrResult) :
    ∀ (order : List Nat) (slots : List (Option OcrResult)) (i : Nat),
      (writeSlots compute order slots)[i]? =
        if i ∈ order ∧ i < slots.length then some (some (compute i)) else slots[i]? := by
  intro order
  induction order with
  | nil =>
    intro slots i
    simp [writeSlots]
  | cons j rest ih =>
    intro slots i
    show (writeSlots compute rest (slots.set j (some (compute j))))[i]? = _
    rw [ih, List.length_set, List.getElem?_set]
    by_cases hij : j = i
    · subst hij
      by_cases hlen : j < slots.length
      · by_cases hmem : j ∈ rest
        · rw [if_pos ⟨hmem, hlen⟩, if_pos ⟨List.mem_cons_self j rest, hlen⟩]
        · rw [if_neg (fun h => hmem h.1), if_pos rfl, if_pos hlen,
            if_pos ⟨List.mem_cons_self j rest, hlen⟩]
      · rw [if_neg (fun h => hlen h.2), if_pos rfl, if_neg hlen,
          if_neg (fun h => hlen h.2), List.getElem?_eq_none (le_of_not_lt hlen)]
    · rw [if_neg hij]
      by_cases hmem : i ∈ rest
      · by_cases hlen : i < slots.length
        · rw [if_pos ⟨hmem, hlen⟩, if_pos ⟨List.mem_cons_of_mem j hmem, hlen⟩]
        · rw [if_neg (fun h => hlen h.2), if_neg (fun h => hlen h.2)]
      · have hnotc : i ∉ j :: rest := by
          intro hc
          rcases List.mem_cons.mp hc with h1 | h2
          · exact hij h1.symm
          · exact hmem h2
        rw [if_neg (fun h => hmem h.1), if_neg (fun h => hnotc h.1)]

/-- With a completion order that is a permutation of the page indices (as
`as_completed` over the submitted futures always is), the orchestrator's
slot-filling produces exactly the in-order list of per-page results. -/
theorem batch_extract_text_eq_map (eng : Engine) (default_language : Str)
    (images : List Img) (language : Option Str) (order : List Nat)
    (hperm : order.Perm (List.range images.length)) :
    batch_extract_text eng default_language images language order =
      (List.range images.length).map
        (fun i => slot_result eng default_language language (images.getD i 0) i) := by
  by_cases himg : images = []
  · subst himg
    rw [batch_extract_text, if_pos rfl]
    rfl
  · rw [batch_extract_text, if_neg himg]
    set compute := fun i => slot_result eng default_language language (images.getD i 0) i
      with hcompute
    have hmem : ∀ i : Nat, i ∈ order ↔ i < images.length := by
      intro i
      rw [hperm.mem_iff, List.mem_range]
    have hslot : writeSlots compute order (List.replicate images.length none) =
        (List.range images.length).map (fun i => some (compute i)) := by
      apply List.ext_getElem?
      intro i
      rw [getElem?_writeSlots, List.length_replicate]
      by_cases hi : i < images.length
      · rw [if_pos ⟨(hmem i).mpr hi, hi⟩]
        rw [List.getElem?_map, List.getElem?_range hi]
        rfl
      · rw [if_neg (fun h => hi h.2),
          List.getElem?_eq_none (by rw [List.length_replicate]; exact le_of_not_lt hi),
          List.getElem?_eq_none (by rw [List.length_map, List.length_range]; exact le_of_not_lt hi)]
    rw [hslot, List.filterMap_map]
    exact congrFun (List.filterMap_eq_map compute) (List.range images.length)

theorem slot_result_page_number (eng : Engine) (default_language : Str)
    (language : Option Str) (img : Img) (i : Nat) :
    (slot_result eng default_language language img i).page_number = i + 1 := by
  cases hx : extract_text_from_image eng default_language img language with
  | ok r => simp [slot_result, hx]
  | error e => simp [slot_result, hx]

/-- C1 (theorem): for every input list of `N` bitmaps and every completion
order of the worker pool (any permutation of the page indices), the batch
orchestrator returns the per-page results in input order — exactly `N`
results whose `page_number` values are `1..N` ascending, the `i`-th produced
from the `i`-th bitmap — and for the empty input it returns `[]` under any
order whatsoever (no worker writes are consulted at all). -/
theorem batch_order_preservation (eng : Engine) (default_language : Str)
    (images : List Img) (language : Option Str) (order : List Nat)
    (hperm : order.Perm (List.range images.length)) :
    batch_extract_text eng default_language images language order =
        (List.range images.length).map
          (fun i => slot_result eng default_language language (images.getD i 0) i) ∧
      (batch_extract_text eng default_language images language order).map
          (fun r => r.page_number) =
        (List.range images.length).map (fun i => i + 1) ∧
      (batch_extract_text eng default_language images language order).length =
        images.length ∧
      (∀ order' : List Nat,
        batch_extract_text eng default_language [] language order' = []) := by
  have hmap := batch_extract_text_eq_map eng default_language images language order hperm
  refine ⟨hmap, ?_, ?_, fun order' => by rw [batch_extract_text, if_pos rfl]⟩
  · rw [hmap, List.map_map]
    apply List.map_congr_left
    intro i _
    exact slot_result_page_number eng default_language language (images.getD i 0) i
  · rw [hmap, List.length_map, List.length_range]

/-- C1 (witness): three bitmaps completed in the order 2, 0, 1 still emit
page numbers `[1, 2, 3]`, and the empty batch is empty. -/
theorem batch_order_preservation_witness :
    ([2, 0, 1] : List Nat).Perm (List.range 3) ∧
      (batch_extract_text downEngine ("eng".toList) [11, 12, 13] none [2, 0, 1]).map
          (fun r => r.page_number) = [1, 2, 3] ∧
      batch_extract_text downEngine ("eng".toList) [] none [7] = [] := by
  have h := batch_order_preservation downEngine ("eng".toList) [11, 12, 13] none
    [2, 0, 1] (by decide)
  exact ⟨by decide, by rw [h.2.1]; decide, h.2.2.2 [7]⟩

/-- C2 (theorem): a failure of page `k` inside the orchestrator becomes data,
never an exception: slot `k` still holds a result with empty text and
raw text, confidence 0, zero counts, page number `k+1` and the wrapped error
message — and every sibling slot `j ≠ k` is exactly what any engine agreeing
with this one on page `j` produces under any completion order, so the failure
neither cancels nor alters sibling pages. -/
theorem batch_page_isolation (eng eng' : Engine) (default_language : Str)
    (images : List Img) (language : Option Str) (order order' : List Nat)
    (k : Nat) (e : Str)
    (hperm : order.Perm (List.range images.length))
    (hperm' : order'.Perm (List.range images.length))
    (hk : k < images.length)
    (hfail : extract_text_from_image eng default_language (images.getD k 0) language =
      .error e) :
    (batch_extract_text eng default_language images language order)[k]? =
        some { text := []
               raw_text := []
               confidence := 0
               language := pyOr language default_language
               word_count := 0
               char_count := 0
               page_number := k + 1
               error := some e } ∧
      ∀ j : Nat, j ≠ k →
        extract_text_from_image eng default_language (images.getD j 0) language =
          extract_text_from_image eng' default_language (images.getD j 0) language →
        (batch_extract_text eng default_language images language order)[j]? =
          (batch_extract_text eng' default_language images language order')[j]? := by
  have hmap := batch_extract_text_eq_map eng default_language images language order hperm
  have hmap' := batch_extract_text_eq_map eng' default_language images language order' hperm'
  constructor
  · rw [hmap, List.getElem?_map, List.getElem?_range hk]
    simp only [Option.map_some']
    unfold slot_result
    rw [hfail]
  · intro j _ hagree
    rw [hmap, hmap', List.getElem?_map, List.getElem?_map]
    by_cases hj : j < images.length
    · rw [List.getElem?_range hj]
      simp only [Option.map_some']
      congr 1
      unfold slot_result
      rw [hagree]
    · rw [List.getElem?_eq_none (by rw [List.length_range]; exact le_of_not_lt hj)]
      rfl

/-- C2 (witness): in the batch `[1, 2]` under completion order `[1, 0]`,
the failed page 1 occupies slot 0 as a zeroed error result, and slot 1
agrees with the run of the fully repaired engine under the opposite
completion order. -/
theorem batch_page_isolation_witness :
    (batch_extract_text flakyEngine ("eng".toList) [1, 2] none [1, 0])[0]? =
        some { text := []
               raw_text := []
               confidence := 0
               language := "eng".toList
               word_count := 0
               char_count := 0
               page_number := 1
               error := some (wrapOcrError ("bad".toList)) } ∧
      (batch_extract_text flakyEngine ("eng".toList) [1, 2] none [1, 0])[1]? =
        (batch_extract_text flakyEngineFixed ("eng".toList) [1, 2] none [0, 1])[1]? := by
  have h := batch_page_isolation flakyEngine flakyEngineFixed ("eng".toList) [1, 2] none
    [1, 0] [0, 1] 0 (wrapOcrError ("bad".toList)) (by decide) (by decide)
    (by decide) rfl
  exact ⟨h.1, h.2 1 (by decide) rfl⟩

/-- C10 (counterexample): a failing page requested with the empty language
string gets the engine's default language (`fra` here) in its error result,
not the caller-requested string `""` — Python's `language or self.language`
replaces every falsy request, not only `None`. -/
theorem error_language_counterexample :
    (batch_extract_text downEngine ("fra".toList) [5] (some []) [0]).map
        (fun r => r.language) = ["fra".toList] ∧
      (batch_extract_text downEngine ("fra".toList) [5] (some []) [0]).map
        (fun r => r.error.isSome) = [true] ∧
      "fra".toList ≠ ([] : Str) := by
  refine ⟨by decide, by decide, by decide⟩

/-- C10 (amended theorem): the error result's `language` field is
`pyOr requested default` — the requested string unless it is `None` or empty,
in which case the configured default — for every engine, so the narrowed or
`eng` fallback tag actually attempted inside the adapter (which depends on
the engine's available languages) is never reflected in error results. -/
theorem error_result_language (eng : Engine) (default_language : Str)
    (images : List Img) (language : Option Str) (order : List Nat) (k : Nat) (e : Str)
    (hperm : order.Perm (List.range images.length))
    (hk : k < images.length)
    (hfail : extract_text_from_image eng default_language (images.getD k 0) language =
      .error e) :
    ((batch_extract_text eng default_language images language order)[k]?).map
        (fun r => r.language) = some (pyOr language default_language) := by
  rw [batch_extract_text_eq_map eng default_language images language order hperm,
    List.getElem?_map, List.getElem?_range hk]
  simp only [Option.map_some']
  unfold slot_result
  rw [hfail]

/-- C10 (witness): a failed page requested as `chi_sim+eng` (with only `eng`
installed, so the adapter attempted the narrowed tag `eng`) still reports
`chi_sim+eng` in its error result. -/
theorem error_result_language_witness :
    ((batch_extract_text downEngine ("fra".toList) [5] (some ("chi_sim+eng".toList))
          [0])[0]?).map (fun r => r.language) =
        some ("chi_sim+eng".toList) ∧
      effective_language downEngine.available ("chi_sim+eng".toList) = "eng".toList := by
  constructor
  · have h := error_result_language downEngine ("fra".toList) [5]
      (some ("chi_sim+eng".toList)) [0] 0 (wrapOcrError ("down".toList))
      (by decide) (by decide) rfl
    rw [h]
    decide
  · decide

/-- C9 (counterexample): when the grayscale conversion succeeds and the
upscaling then fails, the optimizer returns the *converted* bitmap, not the
original unchanged — the claim's "original bitmap is returned" is false for
errors in the upscaling step. -/
theorem optimize_counterexample :
    grayscale_step okConvert rgbImage =
        .ok { mode := "L".toList, width := 500, height := 500 } ∧
      resize_step downResize { mode := "L".toList, width := 500, height := 500 } =
        .error ("resize died".toList) ∧
      optimize_image_for_ocr okConvert downResize rgbImage ≠ rgbImage := by
  refine ⟨rfl, ?_, by decide⟩
  rw [resize_step, if_neg (by decide)]
  norm_num
  rfl

/-- C9 (amended theorem): the optimizer never raises (it is a total function
into bitmaps), and on an internal error it returns the bitmap bound at that
point: the original when the grayscale conversion fails, and the
grayscale-converted bitmap when the upscaling fails. -/
theorem optimize_error_policy (convert : PilImage → Str → Except Str PilImage)
    (resize : PilImage → Nat → Nat → Except Str PilImage) (image : PilImage) :
    (∀ e, grayscale_step convert image = .error e →
      optimize_image_for_ocr convert resize image = image) ∧
      (∀ i1 e, grayscale_step convert image = .ok i1 →
        (i1.width < 1000 ∨ i1.height < 1000) →
        resize_step resize i1 = .error e →
        optimize_image_for_ocr convert resize image = i1) := by
  constructor
  · intro e he
    rw [optimize_image_for_ocr, he]
  · intro i1 e h1 hsmall h2
    rw [optimize_image_for_ocr, h1]
    simp only [if_pos hsmall, h2]

/-- C9 (witness): the policy applied to the concrete failing convert and the
concrete failing resize. -/
theorem optimize_error_policy_witness :
    optimize_image_for_ocr (fun _ _ => .error ("convert died".toList)) downResize
        rgbImage = rgbImage ∧
      optimize_image_for_ocr okConvert downResize rgbImage =
        { mode := "L".toList, width := 500, height := 500 } := by
  constructor
  · exact (optimize_error_policy (fun _ _ => .error ("convert died".toList))
      downResize rgbImage).1 ("convert died".toList) rfl
  · refine (optimize_error_policy okConvert downResize rgbImage).2
      { mode := "L".toList, width := 500, height := 500 }
      ("resize died".toList) rfl (by decide) ?_
    rw [resize_step, if_neg (by decide)]
    norm_num
    rfl

end PdfOcr
